import Mathlib

/-!
Verification development for the LU module of nalgebra-lapack
(src/nalgebra-lapack/src/lu.rs).

The module is a thin wrapper around external LAPACK routines
(xgetrf, xlaswp, xgetrs, xgetri).  We embed the wrapper faithfully:

* dense matrices become `Mat` (dimensions plus an entry function; the
  external routines operate on the matrix as a whole, mirroring the
  column-major slices the wrapper passes);
* the external LAPACK routines xgetrf, xgetrs and xgetri are abstract
  (fields of a `LapackKernel`), constrained only by facts forced by the
  in-place buffer protocol (a routine writing into a caller-supplied
  buffer cannot change its length or shape) and by the documented LAPACK
  pivot contract;
* xlaswp is given its concrete documented semantics (row interchanges
  applied in decreasing index order for a negative increment), since the
  permutation claims are about what the swaps mean;
* Rust panics (assert! and the lapack error macros) are modelled by the
  `PRes.fatal` outcome.
-/

/-- A dense matrix: row and column counts plus an entry function.
Entries outside the dimensions are junk and never observed by bounded
statements. -/
structure Mat (α : Type) where
  nrows : Nat
  ncols : Nat
  entry : Nat → Nat → α

/-- Outcome of a Rust computation that may panic: `fatal` models a panic
(assertion failure or a fatal lapack error macro). -/
inductive PRes (α : Type) where
  | fatal : PRes α
  | ok : α → PRes α

namespace Mat

/-- Bounded pointwise agreement of two matrices on the first `n` rows and
first `m` columns. -/
def EqOn (n m : Nat) (A B : Mat α) : Prop :=
  ∀ i < n, ∀ j < m, A.entry i j = B.entry i j

instance {α : Type} [DecidableEq α] (n m : Nat) (A B : Mat α) :
    Decidable (EqOn n m A B) := by
  unfold EqOn; infer_instance

end Mat

/-- Modelled from the spec: the core matrix type provides
fill_upper_triangle(val, shift), setting every entry on or above the
shift-th superdiagonal (those with i + shift ≤ j); the nalgebra core
crate is part of this repository but not under src/. -/
def fill_upper_triangle {α : Type} (val : α) (shift : Nat) (m : Mat α) : Mat α :=
  ⟨m.nrows, m.ncols, fun i j => if i + shift ≤ j then val else m.entry i j⟩

/-- Modelled from the spec: fill_lower_triangle(val, shift) sets every entry
on or below the shift-th subdiagonal (those with j + shift ≤ i). -/
def fill_lower_triangle {α : Type} (val : α) (shift : Nat) (m : Mat α) : Mat α :=
  ⟨m.nrows, m.ncols, fun i j => if j + shift ≤ i then val else m.entry i j⟩

/-- Modelled from the spec: fill_diagonal(val) sets every diagonal entry. -/
def fill_diagonal {α : Type} (val : α) (m : Mat α) : Mat α :=
  ⟨m.nrows, m.ncols, fun i j => if i = j then val else m.entry i j⟩

/-- Owned copy of the first `k` columns (columns_generic(0, k).into_owned()). -/
def columnsTake {α : Type} (m : Mat α) (k : Nat) : Mat α :=
  ⟨m.nrows, k, m.entry⟩

/-- Owned copy of the first `k` rows (rows_generic(0, k).into_owned()). -/
def rowsTake {α : Type} (m : Mat α) (k : Nat) : Mat α :=
  ⟨k, m.ncols, m.entry⟩

/-- The identity matrix (Matrix::identity_generic(dim, dim)). -/
def identityMat {α : Type} [Zero α] [One α] (n : Nat) : Mat α :=
  ⟨n, n, fun i j => if i = j then 1 else 0⟩

/-- Matrix product, summing over the column count of the left factor. -/
def matMul {α : Type} [CommRing α] (a b : Mat α) : Mat α :=
  ⟨a.nrows, b.ncols, fun i j => ∑ k ∈ Finset.range a.ncols, a.entry i k * b.entry k j⟩

/-- Interchange of rows `i` and `j` of a matrix, as performed by one step of
the LAPACK row-swap routine. -/
def rowSwap {α : Type} (i j : Nat) (m : Mat α) : Mat α :=
  ⟨m.nrows, m.ncols, fun r c =>
    if r = i then m.entry j c else if r = j then m.entry i c else m.entry r c⟩

/-- Modelled from the spec: the external routine xlaswp with k1 = 1,
k2 = pivot count and incx = -1 applies the row interchanges
(position, pivot value - 1) in decreasing order of position; the recursion
performs the swap at position `k` after all later positions, with 1-based
pivot values converted to 0-based row indices. -/
def laswpRev {α : Type} : Nat → List Int → Mat α → Mat α
  | _, [], m => m
  | k, piv :: rest, m => rowSwap k (piv.toNat - 1) (laswpRev (k + 1) rest m)

/-- The LU factorization handle: the combined L/U storage and the pivot
vector (struct fields `lu` and `p` in the source; the pivot field is named
`ipiv` here because `p` is also the name of the permutation-matrix method). -/
structure LU (α : Type) where
  lu : Mat α
  ipiv : List Int

/-- The abstract external LAPACK kernel for a scalar type: the factorization
(xgetrf), triangular solve (xgetrs) and inverse (xgetri) routines, plus the
real-part conversion used by the workspace probe.  The propositional fields
record only what the FFI protocol forces (a routine writing in place into a
caller-supplied buffer cannot change its length or shape) and the documented
pivot contract of xgetrf (1-based in-range row-swap indices). -/
structure LapackKernel (α : Type) where
  getrf : Mat α → List Int → Mat α × List Int × Int
  getrs : Nat → Nat → Nat → Mat α → List Int → Mat α → Mat α × Int
  getri : Nat → Mat α → List Int → List α → Int → Mat α × List α × Int
  realToInt : α → Int
  getrf_size : ∀ a ip, ((getrf a ip).1.nrows = a.nrows ∧ (getrf a ip).1.ncols = a.ncols)
    ∧ (getrf a ip).2.1.length = ip.length
  getrf_pivots : ∀ a ip, ip.length = min a.nrows a.ncols →
    ∀ x ∈ (getrf a ip).2.1, 1 ≤ x ∧ x.toNat ≤ a.nrows
  getrs_size : ∀ t n r a ip b,
    (getrs t n r a ip b).1.nrows = b.nrows ∧ (getrs t n r a ip b).1.ncols = b.ncols

/-- Modelled from the spec: the lapack_check! macro (in this repository but
not under src/).  A negative code is a malformed-argument report and is
fatal, while a positive code reports numerical singularity and yields the
failure indicator (early None).  The same macro guards both the
workspace-probe call and the real inverse call; the spec makes every
nonzero probe code fatal and the singular code of the real call a None,
which one code test reconciles because a workspace probe returns before
any numerical work and therefore never reports a positive code (the query
convention, taken as a hypothesis where it matters): every nonzero probe
code is negative, hence fatal here. -/
inductive CheckR where
  | fatal : CheckR
  | earlyNone : CheckR
  | proceed : CheckR

def lapack_check (info : Int) : CheckR :=
  if info < 0 then CheckR.fatal else if 0 < info then CheckR.earlyNone else CheckR.proceed

/-- Modelled from the spec: the lapack_test! macro (in this repository but
not under src/): the triangular solve succeeded exactly when the reported
code is zero. -/
def lapack_test (info : Int) : Bool :=
  info == 0

namespace LU

variable {α : Type}

/-- LU::new: zero-initialize a pivot buffer of length min(nrows, ncols),
run xgetrf in place, and treat any nonzero code as fatal (the
lapack_panic! macro, modelled from the spec: any nonzero diagnostic code
on the factorization step indicates malformed inputs and is fatal). -/
def new (K : LapackKernel α) (m0 : Mat α) : PRes (LU α) :=
  let ip : List Int := List.replicate (min m0.nrows m0.ncols) 0
  let r := K.getrf m0 ip
  if r.2.2 ≠ 0 then PRes.fatal else PRes.ok ⟨r.1, r.2.1⟩

/-- LU::l: copy of the first min(m, n) columns, zero strictly above the
diagonal, then ones on the diagonal. -/
def l [Zero α] [One α] (h : LU α) : Mat α :=
  fill_diagonal 1 (fill_upper_triangle 0 1 (columnsTake h.lu (min h.lu.nrows h.lu.ncols)))

/-- LU::u: copy of the first min(m, n) rows, zero strictly below the
diagonal. -/
def u [Zero α] (h : LU α) : Mat α :=
  fill_lower_triangle 0 1 (rowsTake h.lu (min h.lu.nrows h.lu.ncols))

/-- LU::permutation_indices: the stored pivot vector. -/
def permutation_indices (h : LU α) : List Int :=
  h.ipiv

/-- LU::permute: apply the row permutation encoded by the pivot vector to
`rhs` (xlaswp with k1 = 1, k2 = pivot count, incx = -1). -/
def permute (h : LU α) (rhs : Mat α) : Mat α :=
  laswpRev 0 h.ipiv rhs

/-- LU::p: build an identity matrix of the row dimension and apply the
permutation to it. -/
def p [Zero α] [One α] (h : LU α) : Mat α :=
  permute h (identityMat h.lu.nrows)

/-- LU::generic_solve_mut: assert squareness and matching row count of `b`
(both panics), then run xgetrs in place on `b` and report success exactly
when the code is zero (lapack_test!). -/
def generic_solve_mut (K : LapackKernel α) (h : LU α) (trans : Nat)
    (b : Mat α) : PRes (Mat α × Bool) :=
  let dim := h.lu.nrows
  if h.lu.nrows = h.lu.ncols then
    if b.nrows = dim then
      let r := K.getrs trans dim b.ncols h.lu h.ipiv b
      PRes.ok (r.1, lapack_test r.2)
    else PRes.fatal
  else PRes.fatal

/-- LU::solve: clone `b`, solve in place with transpose mode T (byte 84),
return the clone on success and discard it on failure. -/
def solve (K : LapackKernel α) (h : LU α) (b : Mat α) : PRes (Option (Mat α)) :=
  match generic_solve_mut K h 84 b with
  | PRes.fatal => PRes.fatal
  | PRes.ok (res, true) => PRes.ok (some res)
  | PRes.ok (_, false) => PRes.ok none

/-- LU::solve_transpose: identical body to solve, transpose mode T (byte 84). -/
def solve_transpose (K : LapackKernel α) (h : LU α) (b : Mat α) :
    PRes (Option (Mat α)) :=
  match generic_solve_mut K h 84 b with
  | PRes.fatal => PRes.fatal
  | PRes.ok (res, true) => PRes.ok (some res)
  | PRes.ok (_, false) => PRes.ok none

/-- LU::solve_conjugate_transpose: identical body to solve, transpose mode T
(byte 84). -/
def solve_conjugate_transpose (K : LapackKernel α) (h : LU α) (b : Mat α) :
    PRes (Option (Mat α)) :=
  match generic_solve_mut K h 84 b with
  | PRes.fatal => PRes.fatal
  | PRes.ok (res, true) => PRes.ok (some res)
  | PRes.ok (_, false) => PRes.ok none

/-- LU::solve_mut: in-place solve with transpose mode T (byte 84); the
returned pair is the final contents of `b` and the success flag. -/
def solve_mut (K : LapackKernel α) (h : LU α) (b : Mat α) : PRes (Mat α × Bool) :=
  generic_solve_mut K h 84 b

/-- LU::solve_transpose_mut: same call as solve_mut. -/
def solve_transpose_mut (K : LapackKernel α) (h : LU α) (b : Mat α) :
    PRes (Mat α × Bool) :=
  generic_solve_mut K h 84 b

/-- LU::solve_adjoint_mut: same call as solve_mut. -/
def solve_adjoint_mut (K : LapackKernel α) (h : LU α) (b : Mat α) :
    PRes (Mat α × Bool) :=
  generic_solve_mut K h 84 b

end LU

/-- The xgetri_work_size wrapper: call xgetri with a one-element work array
and lwork = -1 (the query convention), and return the real part of work[0]
as an integer together with the reported code. -/
def xgetri_work_size {α : Type} [Zero α] (K : LapackKernel α) (n : Nat)
    (a : Mat α) (ipiv : List Int) : Int × Int :=
  let r := K.getri n a ipiv [0] (-1)
  (K.realToInt (r.2.1.headD 0), r.2.2)

/-- The real xgetri call made by inverse: the handle's own storage, its
pivots, and a freshly allocated scratch buffer of zeros of exactly the
probed length (work = vec![zero(); lwork], from the two-phase protocol). -/
def getriCall {α : Type} [Zero α] (K : LapackKernel α) (h : LU α) :
    Mat α × List α × Int :=
  let probe := xgetri_work_size K h.lu.nrows h.lu h.ipiv
  K.getri h.lu.nrows h.lu h.ipiv (List.replicate probe.1.toNat 0) probe.1

namespace LU

/-- LU::inverse: probe the workspace size, check the probe code
(lapack_check!), allocate exactly lwork scratch entries and run xgetri on
the handle's own storage (getriCall), check again, and return that storage
as the inverse. -/
def inverse {α : Type} [Zero α] (K : LapackKernel α) (h : LU α) :
    PRes (Option (Mat α)) :=
  match lapack_check (xgetri_work_size K h.lu.nrows h.lu h.ipiv).2 with
  | CheckR.fatal => PRes.fatal
  | CheckR.earlyNone => PRes.ok none
  | CheckR.proceed =>
    match lapack_check (getriCall K h).2.2 with
    | CheckR.fatal => PRes.fatal
    | CheckR.earlyNone => PRes.ok none
    | CheckR.proceed => PRes.ok (some (getriCall K h).1)

end LU

/-- The triangular-solve call every solve variant ends up making: xgetrs
with transpose mode T (byte 84) on the handle's storage and pivots. -/
def getrsT {α : Type} (K : LapackKernel α) (h : LU α) (b : Mat α) : Mat α × Int :=
  K.getrs 84 h.lu.nrows b.ncols h.lu h.ipiv b

/-- Reading an in-place solve as an allocating one: keep the mutated copy
only when the flag is true, discard it otherwise. -/
def toOpt {α : Type} (r : PRes (Mat α × Bool)) : PRes (Option (Mat α)) :=
  match r with
  | PRes.fatal => PRes.fatal
  | PRes.ok (res, true) => PRes.ok (some res)
  | PRes.ok (_, false) => PRes.ok none

/-- A concrete executable kernel over the rationals, used to evaluate the
wrapper on closed inputs: the factorization leaves its input unchanged and
reports the trivial pivots 1, 1, ..., and every routine reports code 0. -/
def trivKernel : LapackKernel ℚ :=
  ⟨fun a ip => (a, ip.map (fun _ => 1), 0),
   fun _ _ _ _ _ b => (b, 0),
   fun _ a _ w _ => (a, w, 0),
   fun q => q.num,
   by
     intro a ip
     exact ⟨⟨rfl, rfl⟩, by simp⟩,
   by
     intro a ip hlen x hx
     simp only [List.mem_map] at hx
     obtain ⟨y, hy, rfl⟩ := hx
     refine ⟨le_refl 1, ?_⟩
     have hpos : 0 < ip.length := List.length_pos.mpr (by rintro rfl; simp at hy)
     rw [hlen] at hpos
     omega,
   by
     intro t n r a ip b
     exact ⟨rfl, rfl⟩⟩

/-- A kernel identical to trivKernel except that the triangular solve
reports the singular code 1, exercising the failure paths. -/
def singKernel : LapackKernel ℚ :=
  ⟨trivKernel.getrf,
   fun _ _ _ _ _ b => (b, 1),
   trivKernel.getri,
   trivKernel.realToInt,
   trivKernel.getrf_size,
   trivKernel.getrf_pivots,
   by
     intro t n r a ip b
     exact ⟨rfl, rfl⟩⟩

/-- The fixed example matrix [[4, 3], [6, 3]] from the spec. -/
def mExample : Mat ℚ :=
  ⟨2, 2, fun i j =>
    if i = 0 then (if j = 0 then 4 else 3) else (if j = 0 then 6 else 3)⟩

/-- A square factorization handle on the example matrix, with the
partial-pivoting pivot vector [2, 2]. -/
def hGood : LU ℚ :=
  ⟨mExample, [2, 2]⟩

/-- A rectangular (2 by 3) factorization handle, for the shape asserts. -/
def hRect : LU ℚ :=
  ⟨⟨2, 3, fun _ _ => 0⟩, [2, 2]⟩

/-- A concrete 2 by 1 right-hand side. -/
def bOne : Mat ℚ :=
  ⟨2, 1, fun i _ => (i : ℚ) + 1⟩

/-- C1: the three allocating solve variants coincide and the three in-place
variants coincide, because all six make the same underlying triangular-solve
call, generic_solve_mut with transpose mode T (byte 84). -/
theorem c1_solve_variants_identical {α : Type} (K : LapackKernel α)
    (h : LU α) (b : Mat α) :
    LU.solve K h b = LU.solve_transpose K h b
    ∧ LU.solve K h b = LU.solve_conjugate_transpose K h b
    ∧ LU.solve_mut K h b = LU.solve_transpose_mut K h b
    ∧ LU.solve_mut K h b = LU.solve_adjoint_mut K h b
    ∧ LU.solve_mut K h b = LU.generic_solve_mut K h 84 b :=
  ⟨rfl, rfl, rfl, rfl, rfl⟩

/-- C10: each allocating solve variant is exactly the in-place solve run on
a private copy of the right-hand side, with the mutated copy kept only when
the success flag is true and discarded (never exposed) on the failure path;
in the value-semantics embedding the argument b and the handle (taken by
shared reference in the source: l, u, p, permutation_indices, permute and
all solve variants) are never modified. -/
theorem c10_solve_frame {α : Type} (K : LapackKernel α) (h : LU α) (b : Mat α) :
    LU.solve K h b = toOpt (LU.solve_mut K h b)
    ∧ LU.solve_transpose K h b = toOpt (LU.solve_transpose_mut K h b)
    ∧ LU.solve_conjugate_transpose K h b = toOpt (LU.solve_adjoint_mut K h b) := by
  refine ⟨?_, ?_, ?_⟩ <;>
    simp only [LU.solve, LU.solve_transpose, LU.solve_conjugate_transpose, toOpt,
      LU.solve_mut, LU.solve_transpose_mut, LU.solve_adjoint_mut]

/-- C6: l is the m by min(m, n) copy of the stored factorization with unit
diagonal, zeros strictly above the diagonal and the stored entries strictly
below it; u is the min(m, n) by n copy with zeros strictly below the
diagonal and the stored entries on and above it. -/
theorem c6_l_u_extraction {α : Type} [Zero α] [One α] (h : LU α) :
    (LU.l h).nrows = h.lu.nrows
    ∧ (LU.l h).ncols = min h.lu.nrows h.lu.ncols
    ∧ (LU.u h).nrows = min h.lu.nrows h.lu.ncols
    ∧ (LU.u h).ncols = h.lu.ncols
    ∧ (∀ i j : Nat, (LU.l h).entry i j =
        if i = j then 1 else if i < j then 0 else h.lu.entry i j)
    ∧ (∀ i j : Nat, (LU.u h).entry i j =
        if j < i then 0 else h.lu.entry i j) := by
  refine ⟨rfl, rfl, rfl, rfl, ?_, ?_⟩
  · intro i j
    simp only [LU.l, fill_diagonal, fill_upper_triangle, columnsTake]
    by_cases hij : i = j
    · simp [hij]
    · simp only [hij, if_false]
      by_cases hlt : i < j
      · rw [if_pos (by omega), if_pos hlt]
      · rw [if_neg (by omega), if_neg hlt]
  · intro i j
    simp only [LU.u, fill_lower_triangle, rowsTake]
    by_cases hlt : j < i
    · rw [if_pos (by omega), if_pos hlt]
    · rw [if_neg (by omega), if_neg hlt]

/-- Helper for the solve claims: generic_solve_mut is fatal exactly on a
shape violation, and otherwise performs the xgetrs call and reports
success via lapack_test. -/
theorem generic_solve_mut_eq {α : Type} (K : LapackKernel α) (h : LU α)
    (b : Mat α) :
    ((h.lu.nrows ≠ h.lu.ncols ∨ b.nrows ≠ h.lu.nrows) →
      LU.generic_solve_mut K h 84 b = PRes.fatal)
    ∧ (h.lu.nrows = h.lu.ncols → b.nrows = h.lu.nrows →
      LU.generic_solve_mut K h 84 b
        = PRes.ok ((getrsT K h b).1, lapack_test (getrsT K h b).2)) := by
  constructor
  · intro hc
    unfold LU.generic_solve_mut
    rcases hc with hc | hc
    · rw [if_neg hc]
    · by_cases hsq : h.lu.nrows = h.lu.ncols
      · rw [if_pos hsq, if_neg hc]
      · rw [if_neg hsq]
  · intro h1 h2
    unfold LU.generic_solve_mut getrsT
    rw [if_pos h1, if_pos h2]

/-- C3: every solve variant panics when the factorized matrix is not square
or when the row count of b differs from its dimension, and under the
precondition that both shapes match, no variant panics. -/
theorem c3_solve_shape_asserts {α : Type} (K : LapackKernel α) (h : LU α)
    (b : Mat α) :
    ((h.lu.nrows ≠ h.lu.ncols ∨ b.nrows ≠ h.lu.nrows) →
      LU.solve K h b = PRes.fatal
      ∧ LU.solve_transpose K h b = PRes.fatal
      ∧ LU.solve_conjugate_transpose K h b = PRes.fatal
      ∧ LU.solve_mut K h b = PRes.fatal
      ∧ LU.solve_transpose_mut K h b = PRes.fatal
      ∧ LU.solve_adjoint_mut K h b = PRes.fatal)
    ∧ (h.lu.nrows = h.lu.ncols → b.nrows = h.lu.nrows →
      LU.solve K h b ≠ PRes.fatal
      ∧ LU.solve_transpose K h b ≠ PRes.fatal
      ∧ LU.solve_conjugate_transpose K h b ≠ PRes.fatal
      ∧ LU.solve_mut K h b ≠ PRes.fatal
      ∧ LU.solve_transpose_mut K h b ≠ PRes.fatal
      ∧ LU.solve_adjoint_mut K h b ≠ PRes.fatal) := by
  constructor
  · intro hc
    have hgen := (generic_solve_mut_eq K h b).1 hc
    refine ⟨?_, ?_, ?_, ?_, ?_, ?_⟩ <;>
      simp only [LU.solve, LU.solve_transpose, LU.solve_conjugate_transpose,
        LU.solve_mut, LU.solve_transpose_mut, LU.solve_adjoint_mut, hgen]
  · intro h1 h2
    have hgen := (generic_solve_mut_eq K h b).2 h1 h2
    refine ⟨?_, ?_, ?_, ?_, ?_, ?_⟩ <;>
      simp only [LU.solve, LU.solve_transpose, LU.solve_conjugate_transpose,
        LU.solve_mut, LU.solve_transpose_mut, LU.solve_adjoint_mut, hgen] <;>
      cases lapack_test (getrsT K h b).2 <;> simp

/-- Witness for C3: on the rectangular handle the solve panics, and on the
square handle with a matching right-hand side it does not. -/
theorem c3_solve_shape_asserts_witness :
    (hRect.lu.nrows ≠ hRect.lu.ncols ∨ bOne.nrows ≠ hRect.lu.nrows)
    ∧ LU.solve trivKernel hRect bOne = PRes.fatal
    ∧ (hGood.lu.nrows = hGood.lu.ncols ∧ bOne.nrows = hGood.lu.nrows)
    ∧ LU.solve trivKernel hGood bOne ≠ PRes.fatal := by
  refine ⟨by decide, ?_, ⟨by decide, by decide⟩, ?_⟩
  · exact ((c3_solve_shape_asserts trivKernel hRect bOne).1 (by decide)).1
  · exact ((c3_solve_shape_asserts trivKernel hGood bOne).2 (by decide) (by decide)).1

/-- C2: under the shape preconditions, each allocating solve variant
returns None exactly when the triangular solve reports a nonzero code, and
otherwise Some of a matrix with the same shape as b; the in-place variants
return the success flag (code = 0) together with the overwritten buffer. -/
theorem c2_solve_singularity {α : Type} (K : LapackKernel α) (h : LU α)
    (b : Mat α) (hsq : h.lu.nrows = h.lu.ncols) (hb : b.nrows = h.lu.nrows) :
    ((getrsT K h b).1.nrows = b.nrows ∧ (getrsT K h b).1.ncols = b.ncols)
    ∧ (LU.solve K h b = PRes.ok none ↔ (getrsT K h b).2 ≠ 0)
    ∧ ((getrsT K h b).2 = 0 → LU.solve K h b = PRes.ok (some (getrsT K h b).1))
    ∧ LU.solve_mut K h b = PRes.ok ((getrsT K h b).1, lapack_test (getrsT K h b).2)
    ∧ LU.solve_transpose K h b = LU.solve K h b
    ∧ LU.solve_conjugate_transpose K h b = LU.solve K h b
    ∧ LU.solve_transpose_mut K h b = LU.solve_mut K h b
    ∧ LU.solve_adjoint_mut K h b = LU.solve_mut K h b := by
  have hgen := (generic_solve_mut_eq K h b).2 hsq hb
  refine ⟨K.getrs_size 84 h.lu.nrows b.ncols h.lu h.ipiv b, ?_, ?_, hgen, rfl, rfl, rfl, rfl⟩
  · simp only [LU.solve, hgen]
    by_cases hz : (getrsT K h b).2 = 0
    · simp [lapack_test, hz]
    · simp only [lapack_test]
      rw [show ((getrsT K h b).2 == 0) = false from beq_eq_false_iff_ne.mpr hz]
      simp [hz]
  · intro hz
    simp only [LU.solve, hgen]
    simp [lapack_test, hz]

/-- Witness for C2: with the singular-reporting kernel the solve returns
None, with the zero-code kernel it returns Some of the solved buffer. -/
theorem c2_solve_singularity_witness :
    (hGood.lu.nrows = hGood.lu.ncols ∧ bOne.nrows = hGood.lu.nrows)
    ∧ LU.solve singKernel hGood bOne = PRes.ok none
    ∧ LU.solve trivKernel hGood bOne = PRes.ok (some (getrsT trivKernel hGood bOne).1) := by
  refine ⟨⟨by decide, by decide⟩, ?_, ?_⟩
  · exact ((c2_solve_singularity singKernel hGood bOne rfl rfl).2.1).mpr (by decide)
  · exact ((c2_solve_singularity trivKernel hGood bOne rfl rfl).2.2.1) (by decide)

/-- C4: LU::new panics exactly when the factorization routine reports a
nonzero code, and when the routine reports code 0 (which, per the spec,
is what a well-formed but exactly-singular matrix produces) it returns the
handle holding the factorized storage and the pivot buffer; singularity
then only manifests later through the solve and inverse failure paths. -/
theorem c4_new_fatal_iff {α : Type} (K : LapackKernel α) (m0 : Mat α) :
    (LU.new K m0 = PRes.fatal
      ↔ (K.getrf m0 (List.replicate (min m0.nrows m0.ncols) 0)).2.2 ≠ 0)
    ∧ ((K.getrf m0 (List.replicate (min m0.nrows m0.ncols) 0)).2.2 = 0 →
      LU.new K m0 = PRes.ok
        ⟨(K.getrf m0 (List.replicate (min m0.nrows m0.ncols) 0)).1,
         (K.getrf m0 (List.replicate (min m0.nrows m0.ncols) 0)).2.1⟩) := by
  constructor
  · by_cases hz : (K.getrf m0 (List.replicate (min m0.nrows m0.ncols) 0)).2.2 = 0
    · simp [LU.new, hz]
    · simp [LU.new, hz]
  · intro hz
    simp [LU.new, hz]

/-- Witness for C4: the zero-code kernel on the example matrix yields a
handle with the factorized storage and pivots. -/
theorem c4_new_fatal_iff_witness :
    (trivKernel.getrf mExample (List.replicate (min mExample.nrows mExample.ncols) 0)).2.2 = 0
    ∧ LU.new trivKernel mExample = PRes.ok ⟨mExample, [1, 1]⟩ := by
  refine ⟨by decide, ?_⟩
  exact (c4_new_fatal_iff trivKernel mExample).2 (by decide)

/-- C8: a handle built by LU::new has a pivot vector of length exactly
min(rows, cols), whose values are 1-based in-range row-swap indices; in
the value-semantics embedding no later operation alters the handle. -/
theorem c8_pivot_invariant {α : Type} (K : LapackKernel α) (m0 : Mat α)
    (h : LU α) (hnew : LU.new K m0 = PRes.ok h) :
    h.ipiv.length = min m0.nrows m0.ncols
    ∧ ∀ x ∈ h.ipiv, 1 ≤ x ∧ x.toNat ≤ m0.nrows := by
  unfold LU.new at hnew
  by_cases hz : (K.getrf m0 (List.replicate (min m0.nrows m0.ncols) 0)).2.2 ≠ 0
  · rw [if_pos hz] at hnew
    exact absurd hnew (by simp)
  · rw [if_neg hz] at hnew
    injection hnew with hh
    subst hh
    constructor
    · rw [(K.getrf_size m0 (List.replicate (min m0.nrows m0.ncols) 0)).2]
      exact List.length_replicate _ _
    · exact K.getrf_pivots m0 (List.replicate (min m0.nrows m0.ncols) 0)
        (List.length_replicate _ _)

/-- Witness for C8: the handle built from the example matrix has pivot
vector of length min(2, 2) = 2 with in-range 1-based values. -/
theorem c8_pivot_invariant_witness :
    LU.new trivKernel mExample = PRes.ok ⟨mExample, [1, 1]⟩
    ∧ (LU.mk mExample [1, 1]).ipiv.length = min mExample.nrows mExample.ncols
    ∧ ∀ x ∈ (LU.mk mExample [1, 1]).ipiv, 1 ≤ x ∧ x.toNat ≤ mExample.nrows := by
  have hnew : LU.new trivKernel mExample = PRes.ok ⟨mExample, [1, 1]⟩ := by rfl
  have hres := c8_pivot_invariant trivKernel mExample ⟨mExample, [1, 1]⟩ hnew
  exact ⟨hnew, hres.1, hres.2⟩

/-- C5: inverse follows the two-phase protocol.  The hypothesis `hq` is
the documented query convention of the external inverse routine: a
workspace-size probe (lwork = -1) returns before any numerical work
begins, so the only error it can report is a malformed-argument code,
which is negative — a probe code is never positive.  Under it, inverse
panics whenever the probe reports any nonzero (hence negative) code, as
the spec requires of every probe error; otherwise it runs xgetri on the
handle's own storage with a scratch buffer of exactly the probed length
(getriCall); a positive code there (singular matrix) yields None, a
negative one panics, and code 0 yields Some of the overwritten storage. -/
theorem c5_inverse_protocol {α : Type} [Zero α] (K : LapackKernel α) (h : LU α)
    (hq : (xgetri_work_size K h.lu.nrows h.lu h.ipiv).2 ≤ 0) :
    ((xgetri_work_size K h.lu.nrows h.lu h.ipiv).2 ≠ 0 →
      LU.inverse K h = PRes.fatal)
    ∧ ((xgetri_work_size K h.lu.nrows h.lu h.ipiv).2 = 0 →
      (0 < (getriCall K h).2.2 → LU.inverse K h = PRes.ok none)
      ∧ ((getriCall K h).2.2 < 0 → LU.inverse K h = PRes.fatal)
      ∧ ((getriCall K h).2.2 = 0 →
          LU.inverse K h = PRes.ok (some (getriCall K h).1))) := by
  constructor
  · intro hne
    have hneg : (xgetri_work_size K h.lu.nrows h.lu h.ipiv).2 < 0 := by omega
    unfold LU.inverse
    rw [show lapack_check (xgetri_work_size K h.lu.nrows h.lu h.ipiv).2 = CheckR.fatal
      from by unfold lapack_check; rw [if_pos hneg]]
  · intro hz
    have h1 : lapack_check (xgetri_work_size K h.lu.nrows h.lu h.ipiv).2
        = CheckR.proceed := by
      unfold lapack_check
      rw [hz]
      simp
    refine ⟨?_, ?_, ?_⟩ <;> intro h2 <;> unfold LU.inverse <;> rw [h1]
    · rw [show lapack_check (getriCall K h).2.2 = CheckR.earlyNone
        from by unfold lapack_check; rw [if_neg (by omega), if_pos h2]]
    · rw [show lapack_check (getriCall K h).2.2 = CheckR.fatal
        from by unfold lapack_check; rw [if_pos h2]]
    · rw [show lapack_check (getriCall K h).2.2 = CheckR.proceed
        from by unfold lapack_check; rw [h2]; simp]

/-- Witness for C5: the zero-code kernel obeys the query convention, its
probe reports 0, and inverse returns Some of the storage returned by the
real call. -/
theorem c5_inverse_protocol_witness :
    (xgetri_work_size trivKernel hGood.lu.nrows hGood.lu hGood.ipiv).2 ≤ 0
    ∧ (xgetri_work_size trivKernel hGood.lu.nrows hGood.lu hGood.ipiv).2 = 0
    ∧ LU.inverse trivKernel hGood = PRes.ok (some (getriCall trivKernel hGood).1) := by
  refine ⟨by decide, by decide, ?_⟩
  exact ((c5_inverse_protocol trivKernel hGood (by decide)).2 (by decide)).2.2 (by decide)

/-- A row interchange of the left factor commutes with matrix product: it
permutes the rows of the product. -/
theorem matMul_rowSwap {α : Type} [CommRing α] (i j : Nat) (a b : Mat α) :
    matMul (rowSwap i j a) b = rowSwap i j (matMul a b) := by
  unfold matMul rowSwap
  simp only [Mat.mk.injEq]
  refine ⟨trivial, trivial, ?_⟩
  funext r c
  by_cases hri : r = i
  · simp [hri]
  · by_cases hrj : r = j
    · simp [hri, hrj]
    · simp [hri, hrj]

/-- The whole swap sequence of laswpRev commutes with matrix product on the
left factor. -/
theorem laswpRev_matMul {α : Type} [CommRing α] (ps : List Int) :
    ∀ (k : Nat) (a b : Mat α),
      laswpRev k ps (matMul a b) = matMul (laswpRev k ps a) b := by
  induction ps with
  | nil => intro k a b; rfl
  | cons piv rest ih =>
    intro k a b
    show rowSwap k (piv.toNat - 1) (laswpRev (k + 1) rest (matMul a b))
      = matMul (rowSwap k (piv.toNat - 1) (laswpRev (k + 1) rest a)) b
    rw [ih, matMul_rowSwap]

/-- laswpRev preserves the dimensions of its argument. -/
theorem laswpRev_dims {α : Type} (ps : List Int) :
    ∀ (k : Nat) (m : Mat α),
      (laswpRev k ps m).nrows = m.nrows ∧ (laswpRev k ps m).ncols = m.ncols := by
  induction ps with
  | nil => intro k m; exact ⟨rfl, rfl⟩
  | cons piv rest ih => intro k m; exact ih (k + 1) m

/-- Multiplying by the identity on the left reproduces the entries on the
first n rows. -/
theorem matMul_identityMat {α : Type} [CommRing α] (n : Nat) (b : Mat α) :
    ∀ i < n, ∀ j : Nat, (matMul (identityMat n) b).entry i j = b.entry i j := by
  intro i hi j
  show (∑ k ∈ Finset.range n, (if i = k then (1 : α) else 0) * b.entry k j)
    = b.entry i j
  have hcong : ∀ k ∈ Finset.range n,
      (if i = k then (1 : α) else 0) * b.entry k j
        = if i = k then b.entry k j else 0 := by
    intro k _
    split <;> simp
  rw [Finset.sum_congr rfl hcong, Finset.sum_ite_eq,
    if_pos (Finset.mem_range.mpr hi)]

/-- A row interchange with in-range indices preserves bounded pointwise
agreement. -/
theorem rowSwap_eqOn {α : Type} (n m i j : Nat) (hi : i < n) (hj : j < n)
    (A B : Mat α) (hAB : Mat.EqOn n m A B) :
    Mat.EqOn n m (rowSwap i j A) (rowSwap i j B) := by
  intro r hr c hc
  show (if r = i then A.entry j c else if r = j then A.entry i c else A.entry r c)
    = (if r = i then B.entry j c else if r = j then B.entry i c else B.entry r c)
  by_cases hri : r = i
  · rw [if_pos hri, if_pos hri]
    exact hAB j hj c hc
  · rw [if_neg hri, if_neg hri]
    by_cases hrj : r = j
    · rw [if_pos hrj, if_pos hrj]
      exact hAB i hi c hc
    · rw [if_neg hrj, if_neg hrj]
      exact hAB r hr c hc

/-- The whole swap sequence preserves bounded pointwise agreement when the
positions and the 1-based pivot values stay within the first n rows. -/
theorem laswpRev_eqOn {α : Type} (n m : Nat) (ps : List Int) :
    ∀ k, k + ps.length ≤ n → (∀ x ∈ ps, 1 ≤ x ∧ x.toNat ≤ n) →
    ∀ A B : Mat α, Mat.EqOn n m A B →
      Mat.EqOn n m (laswpRev k ps A) (laswpRev k ps B) := by
  induction ps with
  | nil => intro k _ _ A B hAB; exact hAB
  | cons piv rest ih =>
    intro k hk hpv A B hAB
    have hlen : k + (rest.length + 1) ≤ n := by
      simpa [List.length_cons] using hk
    have h1 : k < n := by omega
    obtain ⟨hp1, hp2⟩ := hpv piv (List.mem_cons_self piv rest)
    have h2 : piv.toNat - 1 < n := by omega
    exact rowSwap_eqOn n m k (piv.toNat - 1) h1 h2 _ _
      (ih (k + 1) (by omega) (fun x hx => hpv x (List.mem_cons_of_mem _ hx))
        A B hAB)

/-- C7: p() is by definition permute applied to the m by m identity matrix,
and (under the pivot invariant of C8) the materialized matrix acts by left
multiplication exactly as permute acts directly: both encode the same row
permutation. -/
theorem c7_p_is_permuted_identity {α : Type} [CommRing α] (h : LU α)
    (b : Mat α) (hlen : h.ipiv.length ≤ h.lu.nrows)
    (hrange : ∀ x ∈ h.ipiv, 1 ≤ x ∧ x.toNat ≤ h.lu.nrows)
    (hb : b.nrows = h.lu.nrows) :
    LU.p h = LU.permute h (identityMat h.lu.nrows)
    ∧ (matMul (LU.p h) b).nrows = (LU.permute h b).nrows
    ∧ (matMul (LU.p h) b).ncols = (LU.permute h b).ncols
    ∧ Mat.EqOn h.lu.nrows b.ncols (matMul (LU.p h) b) (LU.permute h b) := by
  refine ⟨rfl, ?_, ?_, ?_⟩
  · show (LU.p h).nrows = (LU.permute h b).nrows
    calc (LU.p h).nrows = h.lu.nrows := (laswpRev_dims h.ipiv 0 _).1
      _ = b.nrows := hb.symm
      _ = (LU.permute h b).nrows := ((laswpRev_dims h.ipiv 0 b).1).symm
  · show b.ncols = (LU.permute h b).ncols
    exact ((laswpRev_dims h.ipiv 0 b).2).symm
  · show Mat.EqOn h.lu.nrows b.ncols
      (matMul (laswpRev 0 h.ipiv (identityMat h.lu.nrows)) b)
      (laswpRev 0 h.ipiv b)
    rw [← laswpRev_matMul]
    exact laswpRev_eqOn h.lu.nrows b.ncols h.ipiv 0 (by omega) hrange _ _
      (fun i hi j _ => matMul_identityMat h.lu.nrows b i hi j)

/-- Witness for C7: on the example handle with pivots [2, 2], the
materialized permutation matrix times the concrete right-hand side agrees
with permute applied directly. -/
theorem c7_p_is_permuted_identity_witness :
    (∀ x ∈ hGood.ipiv, 1 ≤ x ∧ x.toNat ≤ hGood.lu.nrows)
    ∧ Mat.EqOn hGood.lu.nrows bOne.ncols
      (matMul (LU.p hGood) bOne) (LU.permute hGood bOne) := by
  refine ⟨by decide, ?_⟩
  exact (c7_p_is_permuted_identity hGood bOne (by decide) (by decide) rfl).2.2.2
